import Mathlib

/-!
Verification of the asynchronous command engine and file-state cache of the
Git source-control plugin (UEGitPlugin).  The definitions below are shallow
embeddings of the C++ functions named in their doc comments; the theorems at
the end of the file settle the specification claims against them.
-/

/-! ### Substring matching (FString::Contains) -/

/-- Character-list version of "pat is a leading segment of hay". -/
def startsWithChars : List Char → List Char → Bool
  | [], _ => true
  | _ :: _, [] => false
  | p :: ps, h :: hs => p == h && startsWithChars ps hs

/-- Character-list version of substring containment. -/
def hasSubChars (pat : List Char) : List Char → Bool
  | [] => startsWithChars pat []
  | h :: hs => startsWithChars pat (h :: hs) || hasSubChars pat hs

/-- Embedding of `FString::Contains` (substring search, modelled
case-sensitively on the literal markers the code uses). -/
def strContains (hay pat : String) : Bool :=
  hasSubChars pat.data hay.data

/-! ### String constants used by the workers -/

/-- Push-rejection marker scanned by `FGitCheckInWorker::Execute`. -/
def markerRejected : String := "[rejected]"

/-- Push-rejection marker scanned by `FGitCheckInWorker::Execute`. -/
def markerNonFastForward : String := "non-fast-forward"

/-- Marker named by the spec but absent from the code's scan. -/
def markerFetchFirst : String := "fetch first"

/-- Marker named by the spec but absent from the code's scan. -/
def markerCannotLockRef : String := "cannot lock ref"

/-- The benign-error filter `FGitCheckInWorker::Execute` passes to
`RemoveRedundantErrors`. -/
def outsideRepoFilter : String := "' is outside repository"

/-- The empty string (used in concrete witnesses). -/
def noStr : String := ""

/-! ### File-state data model (GitSourceControlState.h) -/

/-- `EFileState::Type`. -/
inductive EFileState where
  | Unset | Unknown | Added | Copied | Deleted | Modified | Renamed | Missing | Unmerged
  deriving DecidableEq, Repr

/-- `ETreeState::Type`. -/
inductive ETreeState where
  | Unset | Unmodified | Working | Staged | Untracked | Ignored | NotInRepo
  deriving DecidableEq, Repr

/-- `ELockState::Type`. -/
inductive ELockState where
  | Unset | Unknown | Unlockable | NotLocked | Locked | LockedOther
  deriving DecidableEq, Repr

/-- `ERemoteState::Type`. -/
inductive ERemoteState where
  | Unset | UpToDate | NotAtHead | AddedAtHead | DeletedAtHead | NotLatest
  deriving DecidableEq, Repr

/-- `FGitState`: the combined per-file state record merged into the cache. -/
structure FGitState where
  fileState : EFileState
  treeState : ETreeState
  lockState : ELockState
  lockUser : String
  remoteState : ERemoteState
  headBranch : String
  deriving DecidableEq, Repr

/-- The member defaults of `FGitState` / a freshly cached
`FGitSourceControlState` (FileState=Unknown, TreeState=NotInRepo,
LockState=Unknown, RemoteState=UpToDate). -/
def defaultGitState : FGitState :=
  { fileState := EFileState.Unknown
    treeState := ETreeState.NotInRepo
    lockState := ELockState.Unknown
    lockUser := noStr
    remoteState := ERemoteState.UpToDate
    headBranch := noStr }

/-- `FGitSourceControlState::IsUnknown`. -/
def isUnknownState (s : FGitState) : Bool :=
  s.fileState = EFileState.Unknown && s.treeState = ETreeState.NotInRepo

/-- `FGitSourceControlState::CanAdd`. -/
def canAddState (s : FGitState) : Bool :=
  s.treeState = ETreeState.Untracked

/-- The per-record body of `GitSourceControlUtils::UpdateCachedStates`: merge
one incoming partial record into the cached record.  A field is copied only
when the incoming value is not `Unset`; an incoming `FileState` of `Added` on
a cached record that is neither Unknown nor addable hits the `continue` and
leaves the whole record untouched.  (The cache-side `TimeStamp` bump and the
ignore-force-cache bookkeeping carry no state-field information and are not
modelled.) -/
def updateCachedState (old incoming : FGitState) : FGitState :=
  if incoming.fileState = EFileState.Added && !(isUnknownState old) && !(canAddState old) then
    old
  else
    { fileState :=
        if incoming.fileState ≠ EFileState.Unset then incoming.fileState else old.fileState
      treeState :=
        if incoming.treeState ≠ ETreeState.Unset then incoming.treeState else old.treeState
      lockState :=
        if incoming.lockState ≠ ELockState.Unset then incoming.lockState else old.lockState
      lockUser :=
        if incoming.lockState ≠ ELockState.Unset then incoming.lockUser else old.lockUser
      remoteState :=
        if incoming.remoteState ≠ ERemoteState.Unset then incoming.remoteState else old.remoteState
      headBranch :=
        if incoming.remoteState ≠ ERemoteState.Unset then
          (if incoming.remoteState = ERemoteState.UpToDate then noStr else incoming.headBranch)
        else old.headBranch }

/-- The state cache: absolute path to cached record (the provider's
`StateCache` map). -/
abbrev StateCacheMap : Type := List (String × FGitState)

/-- `FGitSourceControlProvider::GetStateInternal`: cached record for a path,
or a fresh default record when the path is absent. -/
def getStateInternal (p : String) : StateCacheMap → FGitState
  | [] => defaultGitState
  | (q, t) :: rest => if q = p then t else getStateInternal p rest

/-- Store a record under a path (the in-place mutation of the shared
cached record, expressed functionally). -/
def setState (p : String) (s : FGitState) : StateCacheMap → StateCacheMap
  | [] => [(p, s)]
  | (q, t) :: rest => if q = p then (p, s) :: rest else (q, t) :: setState p s rest

/-- The loop of `GitSourceControlUtils::UpdateCachedStates`: merge every
incoming (path, partial record) pair into the cache in order. -/
def updateCachedStatesLoop (results : List (String × FGitState)) (cache : StateCacheMap) :
    StateCacheMap :=
  results.foldl (fun c pr => setState pr.1 (updateCachedState (getStateInternal pr.1 c) pr.2) c)
    cache

/-- `GitSourceControlUtils::UpdateCachedStates`: returns false (cache
untouched) on an empty result map, otherwise merges every pair and returns
true. -/
def updateCachedStates (results : List (String × FGitState)) (cache : StateCacheMap) :
    Bool × StateCacheMap :=
  if results.isEmpty then (false, cache)
  else (true, updateCachedStatesLoop results cache)

/-- Folding a whole sequence of `UpdateCachedStates` calls into the cache. -/
def updateCachedStatesSeq (seqs : List (List (String × FGitState))) (cache : StateCacheMap) :
    StateCacheMap :=
  seqs.foldl (fun c rs => (updateCachedStates rs c).2) cache

/-! ### Command batching (GitSourceControlUtils::RunCommand / RunCommit) -/

/-- `GitSourceControlConstants::MaxFilesPerBatch`. -/
def maxFilesPerBatch : Nat := 50

/-- Result of one external-tool invocation: success flag, stdout lines and
stderr lines (the out-parameters of `RunCommandInternal`). -/
structure BatchResult where
  success : Bool
  output : List String
  errors : List String
  deriving DecidableEq, Repr

/-- Accumulation of one batch into the running totals:
`bResult &= ...; OutResults += BatchResults; OutErrorMessages += BatchErrors`. -/
def combineBatch (a b : BatchResult) : BatchResult :=
  { success := a.success && b.success
    output := a.output ++ b.output
    errors := a.errors ++ b.errors }

/-- The empty accumulator the batching loop starts from. -/
def emptyBatchResult : BatchResult :=
  { success := true, output := [], errors := [] }

/-- The successive up-to-`MaxFilesPerBatch` slices the batching `while` loops
of `RunCommand` / `RunCommit` take from the file list, in order. -/
def chunkBatches : List String → List (List String)
  | [] => []
  | x :: xs =>
      (x :: xs).take maxFilesPerBatch :: chunkBatches ((x :: xs).drop maxFilesPerBatch)
termination_by l => l.length
decreasing_by
  simp only [maxFilesPerBatch, List.length_drop, List.length_cons]
  omega

/-- The batching `while` loop of `GitSourceControlUtils::RunCommand`,
parameterised by the single-invocation oracle `run1`
(`RunCommandInternal` applied to one batch of files). -/
def runBatchesLoop (run1 : List String → BatchResult) : List String → BatchResult
  | [] => emptyBatchResult
  | x :: xs =>
      combineBatch (run1 ((x :: xs).take maxFilesPerBatch))
        (runBatchesLoop run1 ((x :: xs).drop maxFilesPerBatch))
termination_by l => l.length
decreasing_by
  simp only [maxFilesPerBatch, List.length_drop, List.length_cons]
  omega

/-- `GitSourceControlUtils::RunCommand`: lists longer than the batch limit go
through the batching loop, others through a single invocation. -/
def runCommandModel (run1 : List String → BatchResult) (files : List String) : BatchResult :=
  if files.length > maxFilesPerBatch then runBatchesLoop run1 files else run1 files

/-- The list of file batches `RunCommand` hands to `RunCommandInternal`. -/
def runCommandBatchesUsed (files : List String) : List (List String) :=
  if files.length > maxFilesPerBatch then chunkBatches files else [files]

/-- One `git commit` invocation issued by `RunCommit`: whether `--amend` was
appended to the parameters, and the batch of files supplied. -/
structure CommitInvocation where
  amend : Bool
  files : List String
  deriving DecidableEq, Repr

/-- `GitSourceControlUtils::RunCommit`: a list longer than the batch limit is
committed as a first plain-commit batch of `MaxFilesPerBatch` files followed
by `--amend` commits of the remaining batches; otherwise one plain commit. -/
def runCommitInvocations (files : List String) : List CommitInvocation :=
  if files.length > maxFilesPerBatch then
    { amend := false, files := files.take maxFilesPerBatch } ::
      (chunkBatches (files.drop maxFilesPerBatch)).map (fun b => { amend := true, files := b })
  else
    [{ amend := false, files := files }]

/-! ### RemoveRedundantErrors (GitSourceControlUtils.cpp) -/

/-- `GitSourceControlUtils::RemoveRedundantErrors`: every error message
containing the filter substring is appended to the info messages and removed
from the error messages; if at least one was found and no error message
remains, a failed command is upgraded to success.  Input and output are
(info messages, error messages, bCommandSuccessful). -/
def removeRedundantErrors (infos errs : List String) (success : Bool) (filt : String) :
    List String × List String × Bool :=
  let found := errs.any (fun e => strContains e filt)
  let infos1 := infos ++ errs.filter (fun e => strContains e filt)
  let errs1 := errs.filter (fun e => !(strContains e filt))
  let success1 := if found && errs1.isEmpty && !success then true else success
  (infos1, errs1, success1)

/-! ### CheckIn worker (FGitCheckInWorker::Execute, GitSourceControlOperations.cpp)

The worker shells out to the external tool; each invocation's outcome and
textual output is an input of the run, collected in `CheckInEnv`.  The
control flow, the success-flag updates and the routing of every step's
info/error messages into the command's `ResultInfo` are translated from the
source.  (The unlock step's file-set computation queries the provider's UI
cache for locked files; its contribution is its message output, supplied by
the environment, and it never changes the command's success flag, exactly as
in the source.) -/

/-- Outcomes and outputs of the external-tool invocations one execution of
the CheckIn worker may perform, in program order. -/
structure CheckInEnv where
  /-- `CommitMsgFile.GetFilename().Len() > 0`: the scoped temp file for the
  commit message was created. -/
  tempFileOk : Bool
  /-- Result of the initial `RunCommit`. -/
  commitOk : Bool
  commitInfo : List String
  commitErrors : List String
  /-- Result of `GetRemoteBranchName` (its messages are local to it). -/
  branchOk : Bool
  /-- Result of the `diff --name-only <branch>...HEAD` call. -/
  diffOk : Bool
  diffOut : List String
  diffErrors : List String
  /-- Result of the first `push origin HEAD`. -/
  push1Ok : Bool
  push1Info : List String
  push1Errors : List String
  /-- Result of `reset HEAD~` in the recovery branch. -/
  resetOk : Bool
  resetInfo : List String
  resetErrors : List String
  /-- Result of `FetchRemote`. -/
  fetchOk : Bool
  fetchInfo : List String
  fetchErrors : List String
  /-- Result of `PullOrigin`. -/
  pullOk : Bool
  pulledFiles : List String
  pullInfo : List String
  pullErrors : List String
  /-- Result of the recovery `RunCommit`. -/
  commit2Ok : Bool
  commit2Info : List String
  commit2Errors : List String
  /-- Result of the retried push. -/
  push2Ok : Bool
  push2Info : List String
  push2Errors : List String
  /-- `InCommand.bUsingGitLfsLocking`. -/
  lfsLocking : Bool
  /-- Messages of the best-effort `lfs unlock` step. -/
  unlockInfo : List String
  unlockErrors : List String
  /-- Errors appended by the final `RunUpdateStatus` refresh. -/
  refreshErrors : List String

/-- Observable trace of one CheckIn worker execution: the returned
success flag, how often each external step ran, the file list handed to the
first `RunCommit`, and the accumulated result messages. -/
structure CheckInTrace where
  success : Bool
  commitCalls : Nat
  commitFiles : List String
  diffCalls : Nat
  pushCalls : Nat
  recoveryAttempts : Nat
  fetchCalls : Nat
  pullCalls : Nat
  infos : List String
  errors : List String
  deriving DecidableEq, Repr

/-- The unconditional tail of the worker once the push section is over:
best-effort `lfs unlock` (only when locking is on and the command is still
successful; never changes the success flag) followed by the
`RunUpdateStatus` refresh of the touched files. -/
def checkInFinish (env : CheckInEnv) (t : CheckInTrace) : CheckInTrace :=
  let infos1 := if env.lfsLocking && t.success then t.infos ++ env.unlockInfo else t.infos
  let errs1 := if env.lfsLocking && t.success then t.errors ++ env.unlockErrors else t.errors
  { t with infos := infos1, errors := errs1 ++ env.refreshErrors }

/-- The error messages accumulated in `InCommand.ResultInfo.ErrorMessages`
by the time the failed push's error scan runs: the errors appended (in order)
by the initial commit, the upstream diff, and the push itself. -/
def checkInScanErrors (env : CheckInEnv) : List String :=
  (env.commitErrors ++ env.diffErrors) ++ env.push1Errors

/-- The `bWasOutOfDate` scan of `FGitCheckInWorker::Execute`: some
accumulated error message contains both the bracketed rejected marker and the
non-fast-forward marker. -/
def checkInWasOutOfDate (errs : List String) : Bool :=
  errs.any (fun e => strContains e markerRejected && strContains e markerNonFastForward)

/-- The out-of-date recovery block of `FGitCheckInWorker::Execute`:
`reset HEAD~` (whose result is and-ed into an already false success flag),
fetch, pull with autostash, recommit, and one retried push; entered only from
the failed-push path, with the accumulated info/error messages so far. -/
def checkInRecovery (env : CheckInEnv) (files : List String) (infos1 errs2 : List String) :
    CheckInTrace :=
  let infos2 := infos1 ++ env.resetInfo
  let errs3 := errs2 ++ env.resetErrors
  let infos3 := infos2 ++ env.fetchInfo
  let errs4 := errs3 ++ env.fetchErrors
  if !env.fetchOk then
    checkInFinish env
      { success := false, commitCalls := 1, commitFiles := files, diffCalls := 1,
        pushCalls := 1, recoveryAttempts := 1, fetchCalls := 1, pullCalls := 0,
        infos := infos3, errors := errs4 }
  else
    let infos4 := infos3 ++ env.pullInfo
    let errs5 := errs4 ++ env.pullErrors
    if !env.pullOk then
      checkInFinish env
        { success := false, commitCalls := 1, commitFiles := files, diffCalls := 1,
          pushCalls := 1, recoveryAttempts := 1, fetchCalls := 1, pullCalls := 1,
          infos := infos4, errors := errs5 }
    else
      let infos5 := infos4 ++ env.commit2Info
      let errs6 := errs5 ++ env.commit2Errors
      if !env.commit2Ok then
        checkInFinish env
          { success := false, commitCalls := 2, commitFiles := files, diffCalls := 1,
            pushCalls := 1, recoveryAttempts := 1, fetchCalls := 1, pullCalls := 1,
            infos := infos5, errors := errs6 }
      else
        let infos6 := infos5 ++ env.push2Info
        let errs7 := errs6 ++ env.push2Errors
        checkInFinish env
          { success := env.push2Ok, commitCalls := 2, commitFiles := files,
            diffCalls := 1, pushCalls := 2, recoveryAttempts := 1, fetchCalls := 1,
            pullCalls := 1, infos := infos6, errors := errs7 }

/-- `FGitCheckInWorker::Execute` up to (but excluding) its final
`RemoveRedundantErrors` call. -/
def checkInRaw (env : CheckInEnv) (files : List String) : CheckInTrace :=
  if !env.tempFileOk then
    { success := false, commitCalls := 0, commitFiles := [], diffCalls := 0, pushCalls := 0,
      recoveryAttempts := 0, fetchCalls := 0, pullCalls := 0, infos := [], errors := [] }
  else
    let infos0 := env.commitInfo
    let errs0 := env.commitErrors
    if !env.commitOk then
      { success := false, commitCalls := 1, commitFiles := files, diffCalls := 0, pushCalls := 0,
        recoveryAttempts := 0, fetchCalls := 0, pullCalls := 0, infos := infos0, errors := errs0 }
    else if !env.branchOk then
      { success := false, commitCalls := 1, commitFiles := files, diffCalls := 0, pushCalls := 0,
        recoveryAttempts := 0, fetchCalls := 0, pullCalls := 0, infos := infos0, errors := errs0 }
    else
      let infos1 := infos0 ++ env.push1Info
      let errs2 := checkInScanErrors env
      if env.push1Ok then
        checkInFinish env
          { success := true, commitCalls := 1, commitFiles := files, diffCalls := 1,
            pushCalls := 1, recoveryAttempts := 0, fetchCalls := 0, pullCalls := 0,
            infos := infos1, errors := errs2 }
      else
        if checkInWasOutOfDate errs2 then
          checkInRecovery env files infos1 errs2
        else
          checkInFinish env
            { success := false, commitCalls := 1, commitFiles := files, diffCalls := 1,
              pushCalls := 1, recoveryAttempts := 0, fetchCalls := 0, pullCalls := 0,
              infos := infos1, errors := errs2 }

/-- `FGitCheckInWorker::Execute`: the raw run followed by
`RemoveRedundantErrors(InCommand, "' is outside repository")` on the paths
that reach the end of the function (the early `return false` paths skip
it). -/
def checkInExecute (env : CheckInEnv) (files : List String) : CheckInTrace :=
  let t := checkInRaw env files
  if env.tempFileOk && env.commitOk && env.branchOk then
    let r := removeRedundantErrors t.infos t.errors t.success outsideRepoFilter
    { t with infos := r.1, errors := r.2.1, success := r.2.2 }
  else t

/-! ### Provider Tick and the command queue (GitSourceControlProvider.cpp) -/

/-- `ECommandResult::Type` as computed by
`FGitSourceControlCommand::ReturnResults`. -/
inductive ECommandResult where
  | Succeeded | Failed | Cancelled
  deriving DecidableEq, Repr

/-- The flags of an in-flight `FGitSourceControlCommand` that
`FGitSourceControlProvider::Tick` reads. -/
structure CmdState where
  /-- `bExecuteProcessed`, set by the worker thread when `Execute` returns. -/
  executed : Bool
  /-- `bCancelled`, set by `Cancel()`. -/
  cancelled : Bool
  /-- `bCommandSuccessful`. -/
  success : Bool
  /-- `bAutoDelete`. -/
  autoDelete : Bool
  deriving DecidableEq, Repr

/-- `FGitSourceControlCommand::ReturnResults`: the single result value handed
to the completion delegate. -/
def returnResultOf (c : CmdState) : ECommandResult :=
  if c.cancelled then ECommandResult.Cancelled
  else if c.success then ECommandResult.Succeeded
  else ECommandResult.Failed

/-- What one `Tick` did to the command it stopped at. -/
inductive TickEvent where
  /-- A completed command was removed from the queue and its worker's
  `UpdateStates` folded its results into the cache; the completion callback
  ran with the given result unless the command was cancelled. -/
  | completed (callback : Option ECommandResult)
  /-- A cancelled, still-running command had `ReturnResults` invoked (with
  `Cancelled`) while staying in the queue. -/
  | cancelNotice (r : ECommandResult)
  deriving DecidableEq, Repr

/-- `FGitSourceControlProvider::Tick`: walk the in-flight command queue; at
the first command whose `bExecuteProcessed` is set, remove it, fold its
worker's results into the cache, run its callback unless cancelled, and stop;
at the first command that is merely cancelled, run `ReturnResults`, mark it
auto-delete, keep it queued, and stop. -/
def tick : List CmdState → List CmdState × List TickEvent
  | [] => ([], [])
  | c :: rest =>
      if c.executed then
        (rest,
          [TickEvent.completed (if c.cancelled then none else some (returnResultOf c))])
      else if c.cancelled then
        ({ c with autoDelete := true } :: rest, [TickEvent.cancelNotice (returnResultOf c)])
      else
        let r := tick rest
        (c :: r.1, r.2)

/-- Whether a tick event is the removal-and-merge of a completed command. -/
def TickEvent.isCompleted : TickEvent → Bool
  | TickEvent.completed _ => true
  | TickEvent.cancelNotice _ => false

/-- How many completion-callback invocations a tick event carries. -/
def TickEvent.callbackRuns : TickEvent → Nat
  | TickEvent.completed (some _) => 1
  | TickEvent.completed none => 0
  | TickEvent.cancelNotice _ => 1

/-- The flag values of one asynchronous command as observed by one `Tick`
call (the worker thread and `Cancel()` set the flags between ticks). -/
structure CmdObs where
  executed : Bool
  cancelled : Bool
  deriving DecidableEq, Repr

/-- The queued command built from one observation (an asynchronous command:
`bAutoDelete` is true; `bCommandSuccessful` as captured by `DoWork`). -/
def cmdOf (o : CmdObs) : CmdState :=
  { executed := o.executed, cancelled := o.cancelled, success := true, autoDelete := true }

/-- Drive `tick` over the successive observations of one asynchronous
command, counting completion-callback invocations until the command leaves
the queue. -/
def asyncCallbackCountGo : Bool → List CmdObs → Nat
  | false, _ => 0
  | true, [] => 0
  | true, o :: rest =>
      let r := tick [cmdOf o]
      (r.2.map TickEvent.callbackRuns).sum + asyncCallbackCountGo (!r.1.isEmpty) rest

/-- Number of completion-callback invocations over an asynchronous command's
whole lifetime, given the per-tick observations of its two flags. -/
def asyncCallbackCount (obs : List CmdObs) : Nat :=
  asyncCallbackCountGo true obs

/-! ### Concrete records used in witnesses and counterexamples -/

/-- A cached record for a file the cache knows to be deleted but whose tree
state is `Untracked` (the working-tree deletion of an untracked-again path). -/
def deletedUntrackedState : FGitState :=
  { fileState := EFileState.Deleted
    treeState := ETreeState.Untracked
    lockState := ELockState.Unknown
    lockUser := noStr
    remoteState := ERemoteState.UpToDate
    headBranch := noStr }

/-- A cached record for a file the cache knows to be deleted, staged for
commit. -/
def deletedStagedState : FGitState :=
  { fileState := EFileState.Deleted
    treeState := ETreeState.Staged
    lockState := ELockState.Unknown
    lockUser := noStr
    remoteState := ERemoteState.UpToDate
    headBranch := noStr }

/-- A partial incoming record asserting only `fileState = Added` (all other
fields `Unset`), as a racing MarkForAdd result would produce. -/
def incomingAddedOnly : FGitState :=
  { fileState := EFileState.Added
    treeState := ETreeState.Unset
    lockState := ELockState.Unset
    lockUser := noStr
    remoteState := ERemoteState.Unset
    headBranch := noStr }

/-- An incoming record with every field `Unset`. -/
def incomingAllUnset : FGitState :=
  { fileState := EFileState.Unset
    treeState := ETreeState.Unset
    lockState := ELockState.Unset
    lockUser := noStr
    remoteState := ERemoteState.Unset
    headBranch := noStr }

/-- An oracle for which one invocation just returns its file list: it
distributes over concatenation, so it exercises the unbounded-equivalence
conjunct of C9. -/
def idRunOracle : List String → BatchResult :=
  fun fs => { success := true, output := fs, errors := [] }

/-- A concrete file name for witnesses. -/
def fileNameF : String := "f"

/-! ### Concrete CheckIn environments for witnesses and counterexamples -/

/-- An environment in which every external invocation succeeds with no
output. -/
def okCheckInEnv : CheckInEnv :=
  { tempFileOk := true, commitOk := true, commitInfo := [], commitErrors := []
    branchOk := true, diffOk := true, diffOut := [], diffErrors := []
    push1Ok := true, push1Info := [], push1Errors := []
    resetOk := true, resetInfo := [], resetErrors := []
    fetchOk := true, fetchInfo := [], fetchErrors := []
    pullOk := true, pulledFiles := [], pullInfo := [], pullErrors := []
    commit2Ok := true, commit2Info := [], commit2Errors := []
    push2Ok := true, push2Info := [], push2Errors := []
    lfsLocking := false, unlockInfo := [], unlockErrors := []
    refreshErrors := [] }

/-- A push-rejection stderr line carrying the non-fast-forward marker. -/
def nonFFErrorLine : String := "! [rejected] main -> main (non-fast-forward)"

/-- A push-rejection stderr line carrying the fetch-first marker but not the
non-fast-forward marker. -/
def fetchFirstErrorLine : String := "! [rejected] main -> main (fetch first)"

/-- Environment for C3's witness: both pushes are rejected as
non-fast-forward, every recovery step succeeds. -/
def c3Env : CheckInEnv :=
  { okCheckInEnv with push1Ok := false, push1Errors := [nonFFErrorLine]
                      push2Ok := false, push2Errors := [nonFFErrorLine] }

/-- Environment for C6's counterexample: the push is rejected with a
fetch-first stderr line that lacks the non-fast-forward marker. -/
def c6Env : CheckInEnv :=
  { okCheckInEnv with push1Ok := false, push1Errors := [fetchFirstErrorLine] }

/-! ### Helper lemmas about the cache merge -/

/-- A record never loses knowledge relative to another: every one of the four
state fields that is non-`Unset` in `a` is non-`Unset` in `b`. -/
def fieldsPreserved (a b : FGitState) : Prop :=
  (a.fileState ≠ EFileState.Unset → b.fileState ≠ EFileState.Unset) ∧
  (a.treeState ≠ ETreeState.Unset → b.treeState ≠ ETreeState.Unset) ∧
  (a.lockState ≠ ELockState.Unset → b.lockState ≠ ELockState.Unset) ∧
  (a.remoteState ≠ ERemoteState.Unset → b.remoteState ≠ ERemoteState.Unset)

theorem fieldsPreserved_refl (a : FGitState) : fieldsPreserved a a :=
  ⟨fun h => h, fun h => h, fun h => h, fun h => h⟩

theorem fieldsPreserved_trans {a b c : FGitState} (h1 : fieldsPreserved a b)
    (h2 : fieldsPreserved b c) : fieldsPreserved a c :=
  ⟨fun h => h2.1 (h1.1 h), fun h => h2.2.1 (h1.2.1 h),
   fun h => h2.2.2.1 (h1.2.2.1 h), fun h => h2.2.2.2 (h1.2.2.2 h)⟩

theorem updateCachedState_preserves (old incoming : FGitState) :
    fieldsPreserved old (updateCachedState old incoming) := by
  unfold updateCachedState
  split
  · exact fieldsPreserved_refl old
  · refine ⟨?_, ?_, ?_, ?_⟩ <;> intro h <;> dsimp only <;> split <;> assumption

theorem getState_setState (p q : String) (s : FGitState) (c : StateCacheMap) :
    getStateInternal p (setState q s c) = if q = p then s else getStateInternal p c := by
  induction c with
  | nil => simp [setState, getStateInternal]
  | cons hd tl ih =>
      obtain ⟨r, t⟩ := hd
      by_cases h1 : r = q <;> by_cases h2 : q = p <;>
        simp_all [setState, getStateInternal]

theorem updateCachedStatesLoop_preserves (results : List (String × FGitState)) :
    ∀ (c : StateCacheMap) (p : String),
      fieldsPreserved (getStateInternal p c) (getStateInternal p (updateCachedStatesLoop results c)) := by
  induction results with
  | nil => intro c p; exact fieldsPreserved_refl _
  | cons r rs ih =>
      intro c p
      have hstep :
          updateCachedStatesLoop (r :: rs) c =
            updateCachedStatesLoop rs
              (setState r.1 (updateCachedState (getStateInternal r.1 c) r.2) c) := rfl
      rw [hstep]
      refine fieldsPreserved_trans ?_ (ih _ p)
      rw [getState_setState]
      by_cases hp : r.1 = p
      · subst hp
        simp only [if_pos rfl]
        exact updateCachedState_preserves _ _
      · simp only [if_neg hp]
        exact fieldsPreserved_refl _

theorem updateCachedStates_preserves (results : List (String × FGitState)) (c : StateCacheMap)
    (p : String) :
    fieldsPreserved (getStateInternal p c) (getStateInternal p (updateCachedStates results c).2) := by
  unfold updateCachedStates
  split
  · exact fieldsPreserved_refl _
  · exact updateCachedStatesLoop_preserves results c p

theorem updateCachedStatesSeq_preserves (seqs : List (List (String × FGitState))) :
    ∀ (cache : StateCacheMap) (p : String),
      fieldsPreserved (getStateInternal p cache)
        (getStateInternal p (updateCachedStatesSeq seqs cache)) := by
  induction seqs with
  | nil => intro cache p; exact fieldsPreserved_refl _
  | cons rs rest ih =>
      intro cache p
      have hstep :
          updateCachedStatesSeq (rs :: rest) cache =
            updateCachedStatesSeq rest (updateCachedStates rs cache).2 := rfl
      rw [hstep]
      exact fieldsPreserved_trans (updateCachedStates_preserves rs cache p) (ih _ p)

/-! ### Claim C1 -/

/-- C1: in every sequence of partial merges applied to the cache through
`UpdateCachedStates`, each of the four state fields of a cached record is
overwritten only when the incoming record's corresponding field is not
`Unset` (first conjunct, per merge step), and a field holding a non-`Unset`
value is never replaced by `Unset` by any later merge of the sequence
(second conjunct, over arbitrary call sequences). -/
theorem C1_merge_non_destructive :
    (∀ old incoming : FGitState,
      ((updateCachedState old incoming).fileState ≠ old.fileState →
        incoming.fileState ≠ EFileState.Unset) ∧
      ((updateCachedState old incoming).treeState ≠ old.treeState →
        incoming.treeState ≠ ETreeState.Unset) ∧
      ((updateCachedState old incoming).lockState ≠ old.lockState →
        incoming.lockState ≠ ELockState.Unset) ∧
      ((updateCachedState old incoming).remoteState ≠ old.remoteState →
        incoming.remoteState ≠ ERemoteState.Unset)) ∧
    (∀ (seqs : List (List (String × FGitState))) (cache : StateCacheMap) (p : String),
      fieldsPreserved (getStateInternal p cache)
        (getStateInternal p (updateCachedStatesSeq seqs cache))) := by
  constructor
  · intro old incoming
    unfold updateCachedState
    split
    · exact ⟨fun h => absurd rfl h, fun h => absurd rfl h,
             fun h => absurd rfl h, fun h => absurd rfl h⟩
    · refine ⟨?_, ?_, ?_, ?_⟩ <;> intro h <;> dsimp only at h <;>
        by_contra hu <;> simp [hu] at h
  · exact fun seqs cache p => updateCachedStatesSeq_preserves seqs cache p

/-- Witness for C1: a concrete two-call merge sequence starting from a cache
holding a fully known record keeps every field non-`Unset`. -/
theorem C1_merge_non_destructive_witness :
    (getStateInternal noStr
        (updateCachedStatesSeq [[(noStr, incomingAddedOnly)], [(noStr, incomingAllUnset)]]
          [(noStr, defaultGitState)])).fileState ≠ EFileState.Unset :=
  (C1_merge_non_destructive.2 [[(noStr, incomingAddedOnly)], [(noStr, incomingAllUnset)]]
      [(noStr, defaultGitState)] noStr).1 (by decide)

/-! ### Claim C2 -/

/-- Counterexample to C2 as stated: a cached record with
`fileState = Deleted` and `treeState = Untracked` satisfies `CanAdd()`
(which only checks the tree state), so a racing partial merge asserting
`Added` does overwrite the `Deleted` file state. -/
theorem C2_counterexample :
    deletedUntrackedState.fileState = EFileState.Deleted ∧
    (updateCachedState deletedUntrackedState incomingAddedOnly).fileState =
      EFileState.Added := by decide

/-- C2 (amended): an incoming record whose `fileState` is `Added` is ignored
(whole record untouched) unless the cached record is Unknown or `CanAdd()`
holds, i.e. its `treeState` is `Untracked`; consequently a cached record with
`fileState = Deleted` whose `treeState` is not `Untracked` never transitions
to `Added` through a merge. -/
theorem C2_added_transition_guard (old incoming : FGitState) :
    (incoming.fileState = EFileState.Added → isUnknownState old = false →
      canAddState old = false → updateCachedState old incoming = old) ∧
    (old.fileState = EFileState.Deleted → old.treeState ≠ ETreeState.Untracked →
      (updateCachedState old incoming).fileState ≠ EFileState.Added) := by
  constructor
  · intro hAdd hUnk hCan
    unfold updateCachedState
    simp [hAdd, hUnk, hCan]
  · intro hDel hTree
    unfold updateCachedState
    have hUnk : isUnknownState old = false := by
      unfold isUnknownState
      simp [hDel]
    have hCan : canAddState old = false := by
      unfold canAddState
      simp [hTree]
    by_cases hAdd : incoming.fileState = EFileState.Added
    · simp [hAdd, hUnk, hCan, hDel]
    · simp only [hUnk, hCan]
      split
      · simp [hDel]
      · dsimp only
        split
        · exact hAdd
        · simp [hDel]

/-- Witness for C2 (amended): a staged-deleted record (tree state `Staged`)
rejects a racing `Added` merge outright. -/
theorem C2_added_transition_guard_witness :
    updateCachedState deletedStagedState incomingAddedOnly = deletedStagedState ∧
    (updateCachedState deletedStagedState incomingAddedOnly).fileState ≠ EFileState.Added :=
  ⟨(C2_added_transition_guard deletedStagedState incomingAddedOnly).1 (by decide) (by decide)
      (by decide),
   (C2_added_transition_guard deletedStagedState incomingAddedOnly).2 (by decide) (by decide)⟩

/-! ### Claim C4 -/

/-- C4: one call of the provider's `Tick` processes at most one completed
command: at most one command is removed from the in-flight queue, and at most
one `completed` event (the fold of a worker's results into the state cache)
is produced. -/
theorem C4_at_most_one_completion_per_tick (q : List CmdState) :
    ((tick q).2.countP (fun e => TickEvent.isCompleted e)) ≤ 1 ∧
    q.length ≤ (tick q).1.length + 1 := by
  induction q with
  | nil => simp [tick]
  | cons c rest ih =>
      by_cases he : c.executed = true
      · simp [tick, he, TickEvent.isCompleted]
      · have he' : c.executed = false := by simpa using he
        by_cases hc : c.cancelled = true
        · simp [tick, he', hc, TickEvent.isCompleted]
        · have hc' : c.cancelled = false := by simpa using hc
          simpa [tick, he', hc'] using ih

/-! ### Claim C5 -/

/-- Counterexample to C5 as stated: a command cancelled while its worker is
still running is observed by two ticks before the worker finishes; the
cancelled-but-unfinished branch of `Tick` calls `ReturnResults` on each of
those ticks without removing the command, so the completion callback runs
twice (and the final completed tick, seeing the cancellation, runs it no
further time). -/
theorem C5_counterexample :
    asyncCallbackCount
        [{ executed := false, cancelled := true }, { executed := false, cancelled := true },
          { executed := true, cancelled := true }] = 2 ∧
    (2 : Nat) ≠ 1 := by decide

/-- C5 (amended): a command that is never cancelled has its completion
callback invoked exactly once over its whole asynchronous lifetime, on the
first tick that observes it completed; a command cancelled while still
executing instead gets one `ReturnResults` call per tick that observes it
cancelled and unfinished (possibly zero or several). -/
theorem C5_callback_exactly_once_uncancelled :
    ∀ obs : List CmdObs, (∀ o ∈ obs, o.cancelled = false) →
      obs.any (fun o => o.executed) = true → asyncCallbackCount obs = 1 := by
  intro obs
  unfold asyncCallbackCount
  induction obs with
  | nil => intro _ hex; simp at hex
  | cons o rest ih =>
      intro hnc hex
      have hc : o.cancelled = false := hnc o (by simp)
      by_cases he : o.executed = true
      · simp [asyncCallbackCountGo, tick, cmdOf, he, hc, TickEvent.callbackRuns]
      · have he' : o.executed = false := by simpa using he
        have hrest : rest.any (fun o => o.executed) = true := by
          simpa [he'] using hex
        have hih := ih (fun x hx => hnc x (by simp [hx])) hrest
        simpa [asyncCallbackCountGo, tick, cmdOf, he', hc] using hih

/-- Witness for C5 (amended): an uncancelled command completed at the first
tick receives exactly one callback. -/
theorem C5_callback_exactly_once_uncancelled_witness :
    asyncCallbackCount [{ executed := true, cancelled := false }] = 1 :=
  C5_callback_exactly_once_uncancelled [{ executed := true, cancelled := false }]
    (by decide) (by decide)

/-! ### Claim C8 -/

/-- C8: `RemoveRedundantErrors` appends every error message containing the
filter substring to the info messages, removes exactly those from the error
list, upgrades a failed command to success when at least one was found and
the error list is left empty, and leaves the success flag alone when no
error message contains the substring. -/
theorem C8_redundant_error_suppression (infos errs : List String) (success : Bool)
    (filt : String) :
    (removeRedundantErrors infos errs success filt).1 =
      infos ++ errs.filter (fun e => strContains e filt) ∧
    (removeRedundantErrors infos errs success filt).2.1 =
      errs.filter (fun e => !(strContains e filt)) ∧
    ((∃ e ∈ errs, strContains e filt = true) →
      (removeRedundantErrors infos errs success filt).2.1 = [] →
      (removeRedundantErrors infos errs success filt).2.2 = true) ∧
    ((∀ e ∈ errs, strContains e filt = false) →
      (removeRedundantErrors infos errs success filt).2.2 = success) := by
  refine ⟨rfl, rfl, ?_, ?_⟩
  · intro hex hempty
    have hfound : errs.any (fun e => strContains e filt) = true := by
      rw [List.any_eq_true]
      obtain ⟨e, he, hpe⟩ := hex
      exact ⟨e, he, hpe⟩
    have hempty' : (errs.filter (fun e => !(strContains e filt))).isEmpty = true := by
      unfold removeRedundantErrors at hempty
      simp only at hempty
      simp [hempty]
    unfold removeRedundantErrors
    cases success <;> simp [hfound, hempty']
  · intro hall
    have hfound : errs.any (fun e => strContains e filt) = false := by
      rw [List.any_eq_false]
      intro e he
      simp [hall e he]
    unfold removeRedundantErrors
    simp [hfound]

/-- Witness for C8: one benign error message matching the filter is moved to
the info stream and the failed command is upgraded to success. -/
theorem C8_redundant_error_suppression_witness :
    (removeRedundantErrors [] [outsideRepoFilter] false outsideRepoFilter).2.2 = true :=
  (C8_redundant_error_suppression [] [outsideRepoFilter] false outsideRepoFilter).2.2.1
    (by decide) (by decide)

/-! ### Helper lemmas about batching -/

theorem chunkBatches_sizes (l : List String) :
    ∀ b ∈ chunkBatches l, b.length ≤ maxFilesPerBatch := by
  induction l using chunkBatches.induct with
  | case1 => simp [chunkBatches]
  | case2 x xs ih =>
      intro b hb
      rw [chunkBatches] at hb
      rcases List.mem_cons.mp hb with hb | hb
      · subst hb
        simp
      · exact ih b hb

theorem chunkBatches_flatten (l : List String) : (chunkBatches l).flatten = l := by
  induction l using chunkBatches.induct with
  | case1 => simp [chunkBatches]
  | case2 x xs ih =>
      rw [chunkBatches]
      simp [ih]

theorem runBatchesLoop_eq_foldr (run1 : List String → BatchResult) (l : List String) :
    runBatchesLoop run1 l =
      (chunkBatches l).foldr (fun b acc => combineBatch (run1 b) acc) emptyBatchResult := by
  induction l using chunkBatches.induct with
  | case1 => simp [chunkBatches, runBatchesLoop]
  | case2 x xs ih =>
      rw [chunkBatches, runBatchesLoop]
      simp [ih]

theorem combineBatch_empty_right (a : BatchResult) : combineBatch a emptyBatchResult = a := by
  simp [combineBatch, emptyBatchResult]

theorem runBatchesLoop_hom (run1 : List String → BatchResult)
    (hadd : ∀ a b, run1 (a ++ b) = combineBatch (run1 a) (run1 b))
    (hempty : run1 [] = emptyBatchResult) (l : List String) :
    runBatchesLoop run1 l = run1 l := by
  induction l using chunkBatches.induct with
  | case1 => simp [runBatchesLoop, hempty]
  | case2 x xs ih =>
      rw [runBatchesLoop, ih]
      rw [← hadd]
      rw [List.take_append_drop]

/-! ### Claim C9 -/

/-- C9: `RunCommand` hands the file list to the external tool in successive
batches of at most `MaxFilesPerBatch` files that cover the list in order
(conjuncts 1 and 2); a list of at most `MaxFilesPerBatch` files is passed in
exactly one invocation (conjunct 3); the overall result is the in-order
concatenation of the per-batch results with all success flags and-ed
(conjunct 4); and whenever the single-invocation oracle distributes over
list concatenation, the batched run equals one hypothetical unbounded
invocation (conjunct 5). -/
theorem C9_run_command_batching (run1 : List String → BatchResult) (files : List String) :
    (∀ b ∈ runCommandBatchesUsed files, b.length ≤ maxFilesPerBatch) ∧
    (runCommandBatchesUsed files).flatten = files ∧
    (files.length ≤ maxFilesPerBatch → runCommandBatchesUsed files = [files]) ∧
    runCommandModel run1 files =
      (runCommandBatchesUsed files).foldr (fun b acc => combineBatch (run1 b) acc)
        emptyBatchResult ∧
    ((∀ a b, run1 (a ++ b) = combineBatch (run1 a) (run1 b)) →
      run1 [] = emptyBatchResult → runCommandModel run1 files = run1 files) := by
  refine ⟨?_, ?_, ?_, ?_, ?_⟩
  · intro b hb
    unfold runCommandBatchesUsed at hb
    by_cases h : files.length > maxFilesPerBatch
    · rw [if_pos h] at hb
      exact chunkBatches_sizes files b hb
    · rw [if_neg h] at hb
      rcases List.mem_cons.mp hb with hb | hb
      · subst hb
        omega
      · exact absurd hb (List.not_mem_nil b)
  · unfold runCommandBatchesUsed
    by_cases h : files.length > maxFilesPerBatch
    · rw [if_pos h]
      exact chunkBatches_flatten files
    · rw [if_neg h]
      simp
  · intro h
    unfold runCommandBatchesUsed
    rw [if_neg (by omega)]
  · unfold runCommandModel runCommandBatchesUsed
    by_cases h : files.length > maxFilesPerBatch
    · rw [if_pos h, if_pos h]
      exact runBatchesLoop_eq_foldr run1 files
    · rw [if_neg h, if_neg h]
      simp [combineBatch_empty_right]
  · intro hadd hempty
    unfold runCommandModel
    by_cases h : files.length > maxFilesPerBatch
    · rw [if_pos h]
      exact runBatchesLoop_hom run1 hadd hempty files
    · rw [if_neg h]

/-- Witness for C9: a 51-file list split into batches yields the same result
as one unbounded invocation of the oracle. -/
theorem C9_run_command_batching_witness :
    runCommandModel idRunOracle (List.replicate 51 fileNameF) =
      idRunOracle (List.replicate 51 fileNameF) :=
  (C9_run_command_batching idRunOracle (List.replicate 51 fileNameF)).2.2.2.2
    (fun a b => by simp [idRunOracle, combineBatch]) (by simp [idRunOracle, emptyBatchResult])

/-! ### Claim C10 -/

/-- C10: for more than `MaxFilesPerBatch` files, `RunCommit` issues a first
plain commit holding exactly the first `MaxFilesPerBatch` files, every
further invocation carries `--amend` and at most `MaxFilesPerBatch` files,
the invocations cover the whole list in order, and exactly one invocation is
a non-amend commit — so a successful run produces a single commit containing
all requested files. -/
theorem C10_commit_amend_batches (files : List String)
    (h : files.length > maxFilesPerBatch) :
    (runCommitInvocations files).head? =
      some { amend := false, files := files.take maxFilesPerBatch } ∧
    (∀ inv ∈ (runCommitInvocations files).tail,
      inv.amend = true ∧ inv.files.length ≤ maxFilesPerBatch) ∧
    ((runCommitInvocations files).map CommitInvocation.files).flatten = files ∧
    ((runCommitInvocations files).filter (fun i => !i.amend)).length = 1 := by
  unfold runCommitInvocations
  rw [if_pos h]
  refine ⟨rfl, ?_, ?_, ?_⟩
  · intro inv hinv
    simp only [List.tail_cons, List.mem_map] at hinv
    obtain ⟨b, hb, hbe⟩ := hinv
    subst hbe
    exact ⟨rfl, chunkBatches_sizes _ b hb⟩
  · have hmap : ((chunkBatches (files.drop maxFilesPerBatch)).map
        (fun b => CommitInvocation.mk true b)).map CommitInvocation.files =
        chunkBatches (files.drop maxFilesPerBatch) := by
      induction chunkBatches (files.drop maxFilesPerBatch) with
      | nil => rfl
      | cons b bt ih => simp_all
    simp only [List.map_cons, List.flatten_cons, hmap]
    rw [chunkBatches_flatten, List.take_append_drop]
  · have hfilt : (List.map (fun b => CommitInvocation.mk true b)
        (chunkBatches (files.drop maxFilesPerBatch))).filter (fun i => !i.amend) = [] := by
      rw [List.filter_eq_nil_iff]
      intro a ha
      rw [List.mem_map] at ha
      obtain ⟨b, _, hbe⟩ := ha
      subst hbe
      simp
    simp [List.filter_cons, hfilt]

/-- Witness for C10: a concrete 51-file commit issues exactly one non-amend
commit invocation. -/
theorem C10_commit_amend_batches_witness :
    ((runCommitInvocations (List.replicate 51 fileNameF)).filter (fun i => !i.amend)).length
      = 1 :=
  (C10_commit_amend_batches (List.replicate 51 fileNameF) (by simp [maxFilesPerBatch])).2.2.2

/-! ### Helper lemmas about the CheckIn worker -/

theorem checkInFinish_fields (env : CheckInEnv) (t : CheckInTrace) :
    (checkInFinish env t).success = t.success ∧
    (checkInFinish env t).commitCalls = t.commitCalls ∧
    (checkInFinish env t).commitFiles = t.commitFiles ∧
    (checkInFinish env t).diffCalls = t.diffCalls ∧
    (checkInFinish env t).pushCalls = t.pushCalls ∧
    (checkInFinish env t).recoveryAttempts = t.recoveryAttempts ∧
    (checkInFinish env t).fetchCalls = t.fetchCalls ∧
    (checkInFinish env t).pullCalls = t.pullCalls :=
  ⟨rfl, rfl, rfl, rfl, rfl, rfl, rfl, rfl⟩

theorem checkInRecovery_spec (env : CheckInEnv) (files : List String)
    (infos1 errs2 : List String) :
    (checkInRecovery env files infos1 errs2).recoveryAttempts = 1 ∧
    (checkInRecovery env files infos1 errs2).fetchCalls = 1 ∧
    (checkInRecovery env files infos1 errs2).pullCalls ≤ 1 ∧
    (checkInRecovery env files infos1 errs2).pushCalls ≤ 2 ∧
    (checkInRecovery env files infos1 errs2).pushCalls ≥ 1 ∧
    (checkInRecovery env files infos1 errs2).commitCalls ≤ 2 ∧
    (checkInRecovery env files infos1 errs2).commitCalls ≥ 1 ∧
    (checkInRecovery env files infos1 errs2).commitFiles = files ∧
    (checkInRecovery env files infos1 errs2).diffCalls = 1 ∧
    ((checkInRecovery env files infos1 errs2).success = true → env.push2Ok = true) := by
  unfold checkInRecovery
  repeat' split
  all_goals simp [checkInFinish]

theorem checkInRaw_spec (env : CheckInEnv) (files : List String) :
    (checkInRaw env files).recoveryAttempts ≤ 1 ∧
    (checkInRaw env files).fetchCalls ≤ 1 ∧
    (checkInRaw env files).pullCalls ≤ 1 ∧
    (checkInRaw env files).pushCalls ≤ 2 ∧
    ((checkInRaw env files).success = true → env.push1Ok = true ∨ env.push2Ok = true) := by
  unfold checkInRaw
  split
  · simp
  · split
    · simp
    · split
      · simp
      · split
        · simp_all [checkInFinish]
        · dsimp only
          split
          · obtain ⟨a1, a2, a3, a4, _, _, _, _, _, a10⟩ := checkInRecovery_spec env files _ _
            exact ⟨le_of_eq a1, le_of_eq a2, a3, a4, fun hs => Or.inr (a10 hs)⟩
          · simp [checkInFinish]

theorem checkInExecute_counts (env : CheckInEnv) (files : List String) :
    (checkInExecute env files).recoveryAttempts = (checkInRaw env files).recoveryAttempts ∧
    (checkInExecute env files).fetchCalls = (checkInRaw env files).fetchCalls ∧
    (checkInExecute env files).pullCalls = (checkInRaw env files).pullCalls ∧
    (checkInExecute env files).pushCalls = (checkInRaw env files).pushCalls ∧
    (checkInExecute env files).commitCalls = (checkInRaw env files).commitCalls ∧
    (checkInExecute env files).commitFiles = (checkInRaw env files).commitFiles ∧
    (checkInExecute env files).diffCalls = (checkInRaw env files).diffCalls := by
  unfold checkInExecute
  split <;> simp

theorem filter_keep_not_isEmpty (l : List String) (p : String → Bool)
    (h : ∃ e ∈ l, p e = false) : (l.filter (fun e => !(p e))).isEmpty = false := by
  obtain ⟨e, he, hpe⟩ := h
  have hmem : e ∈ l.filter (fun e => !(p e)) := List.mem_filter.mpr ⟨he, by simp [hpe]⟩
  cases hfe : l.filter (fun e => !(p e)) with
  | nil =>
      rw [hfe] at hmem
      exact absurd hmem (List.not_mem_nil e)
  | cons a as => rfl

theorem checkInExecute_success_imp (env : CheckInEnv) (files : List String)
    (hse : ∃ e ∈ (checkInRaw env files).errors, strContains e outsideRepoFilter = false) :
    (checkInExecute env files).success = true → (checkInRaw env files).success = true := by
  unfold checkInExecute
  split
  · intro h
    have hne := filter_keep_not_isEmpty (checkInRaw env files).errors
      (fun e => strContains e outsideRepoFilter) hse
    simp only [removeRedundantErrors] at h
    simpa [hne] using h
  · exact fun h => h

theorem checkInRaw_recovery_cases (env : CheckInEnv) (files : List String)
    (h1 : env.tempFileOk = true) (h2 : env.commitOk = true) (h3 : env.branchOk = true)
    (h4 : env.push1Ok = false) :
    (checkInWasOutOfDate (checkInScanErrors env) = true →
      (checkInRaw env files).recoveryAttempts = 1) ∧
    (checkInWasOutOfDate (checkInScanErrors env) = false →
      (checkInRaw env files).recoveryAttempts = 0 ∧
      (checkInRaw env files).fetchCalls = 0 ∧ (checkInRaw env files).pullCalls = 0 ∧
      (checkInRaw env files).success = false) := by
  constructor
  · intro hw
    have hform : checkInRaw env files =
        checkInRecovery env files (env.commitInfo ++ env.push1Info) (checkInScanErrors env) := by
      simp [checkInRaw, h1, h2, h3, h4, hw]
    rw [hform]
    exact (checkInRecovery_spec env files _ _).1
  · intro hw
    unfold checkInRaw
    simp [h1, h2, h3, h4, hw, checkInFinish]

theorem checkInRaw_commit_behavior (env : CheckInEnv) (files : List String)
    (h1 : env.tempFileOk = true) :
    (checkInRaw env files).commitCalls ≥ 1 ∧
    (checkInRaw env files).commitFiles = files ∧
    (env.commitOk = true → env.branchOk = true →
      (checkInRaw env files).diffCalls = 1 ∧ (checkInRaw env files).pushCalls ≥ 1) ∧
    (env.commitOk = false → (checkInRaw env files).pushCalls = 0) := by
  by_cases h2 : env.commitOk = true
  · by_cases h3 : env.branchOk = true
    · by_cases h4 : env.push1Ok = true
      · simp [checkInRaw, h1, h2, h3, h4, checkInFinish]
      · have h4' : env.push1Ok = false := by simpa using h4
        by_cases hw : checkInWasOutOfDate (checkInScanErrors env) = true
        · have hform : checkInRaw env files =
              checkInRecovery env files (env.commitInfo ++ env.push1Info)
                (checkInScanErrors env) := by
            simp [checkInRaw, h1, h2, h3, h4', hw]
          obtain ⟨_, _, _, _, r5, _, r7, r8, r9, _⟩ :=
            checkInRecovery_spec env files (env.commitInfo ++ env.push1Info)
              (checkInScanErrors env)
          rw [hform]
          exact ⟨r7, r8, fun _ _ => ⟨r9, r5⟩, fun hc => absurd (h2 ▸ hc) (by simp)⟩
        · have hw' : checkInWasOutOfDate (checkInScanErrors env) = false := by simpa using hw
          simp [checkInRaw, h1, h2, h3, h4', hw', checkInFinish]
    · have h3' : env.branchOk = false := by simpa using h3
      simp [checkInRaw, h1, h2, h3', checkInFinish]
  · have h2' : env.commitOk = false := by simpa using h2
    simp [checkInRaw, h1, h2', checkInFinish]

/-! ### Claim C3 -/

/-- C3: the CheckIn worker attempts the out-of-date recovery sequence at most
once per execution (at most one recovery entry, one fetch, one pull and two
pushes), and when both the original and the retried push fail — and some
accumulated error message is not the benign outside-repository line that
`RemoveRedundantErrors` would strip — the worker terminates with failure;
there is no further recovery attempt or loop. -/
theorem C3_push_recovery_bounded (env : CheckInEnv) (files : List String) :
    (checkInExecute env files).recoveryAttempts ≤ 1 ∧
    (checkInExecute env files).fetchCalls ≤ 1 ∧
    (checkInExecute env files).pullCalls ≤ 1 ∧
    (checkInExecute env files).pushCalls ≤ 2 ∧
    (env.push1Ok = false → env.push2Ok = false →
      (∃ e ∈ (checkInRaw env files).errors, strContains e outsideRepoFilter = false) →
      (checkInExecute env files).success = false) := by
  obtain ⟨hc1, hc2, hc3, hc4, _, _, _⟩ := checkInExecute_counts env files
  obtain ⟨hb1, hb2, hb3, hb4, hb5⟩ := checkInRaw_spec env files
  refine ⟨by rw [hc1]; exact hb1, by rw [hc2]; exact hb2, by rw [hc3]; exact hb3,
    by rw [hc4]; exact hb4, ?_⟩
  intro hp1 hp2 hse
  cases hfin : (checkInExecute env files).success with
  | false => rfl
  | true =>
      have hraw := checkInExecute_success_imp env files hse hfin
      rcases hb5 hraw with h | h
      · rw [hp1] at h
        exact absurd h (by simp)
      · rw [hp2] at h
        exact absurd h (by simp)

/-- Witness for C3: with both pushes rejected as non-fast-forward and every
recovery step succeeding, the worker ends in failure after its single
recovery attempt. -/
theorem C3_push_recovery_bounded_witness :
    (checkInExecute c3Env []).success = false :=
  (C3_push_recovery_bounded c3Env []).2.2.2.2 (by decide) (by decide) (by decide)

/-! ### Claim C6 -/

/-- Counterexample to C6 as stated: a push rejected with a stderr line that
carries the spec's "fetch first" marker but not the non-fast-forward marker
does not enter the recovery branch — the code's scan requires the rejected
marker and the non-fast-forward marker on one message, so the claimed
three-marker trigger condition does not match the code. -/
theorem C6_counterexample :
    (∃ e ∈ checkInScanErrors c6Env, strContains e markerFetchFirst = true) ∧
    c6Env.push1Ok = false ∧
    (checkInExecute c6Env []).recoveryAttempts = 0 ∧
    (checkInExecute c6Env []).fetchCalls = 0 ∧
    (checkInExecute c6Env []).success = false := by decide

/-- C6 (amended): after a failed push, the recovery branch is entered if and
only if some accumulated error message contains both the bracketed rejected
marker and the non-fast-forward marker; "fetch first" or "cannot lock ref"
text alone does not trigger it, and a push failure with no message matching
the two-marker test is terminal: no fetch, no pull, and the raw run ends in
failure. -/
theorem C6_recovery_marker (env : CheckInEnv) (files : List String)
    (h1 : env.tempFileOk = true) (h2 : env.commitOk = true) (h3 : env.branchOk = true)
    (h4 : env.push1Ok = false) :
    ((checkInExecute env files).recoveryAttempts = 1 ↔
      ∃ e ∈ checkInScanErrors env,
        strContains e markerRejected = true ∧ strContains e markerNonFastForward = true) ∧
    ((∀ e ∈ checkInScanErrors env,
        ¬(strContains e markerRejected = true ∧ strContains e markerNonFastForward = true)) →
      (checkInExecute env files).fetchCalls = 0 ∧
      (checkInExecute env files).pullCalls = 0 ∧
      (checkInRaw env files).success = false) := by
  obtain ⟨hc1, hc2, hc3, _, _, _, _⟩ := checkInExecute_counts env files
  obtain ⟨hA, hB⟩ := checkInRaw_recovery_cases env files h1 h2 h3 h4
  have hiff : checkInWasOutOfDate (checkInScanErrors env) = true ↔
      ∃ e ∈ checkInScanErrors env,
        strContains e markerRejected = true ∧ strContains e markerNonFastForward = true := by
    unfold checkInWasOutOfDate
    rw [List.any_eq_true]
    constructor
    · rintro ⟨e, he, hpe⟩
      exact ⟨e, he, by simpa [Bool.and_eq_true] using hpe⟩
    · rintro ⟨e, he, hpe1, hpe2⟩
      exact ⟨e, he, by simp [hpe1, hpe2]⟩
  constructor
  · rw [hc1]
    constructor
    · intro hrec
      cases hwv : checkInWasOutOfDate (checkInScanErrors env) with
      | true => exact hiff.mp hwv
      | false =>
          have hzero := (hB hwv).1
          rw [hzero] at hrec
          exact absurd hrec (by simp)
    · intro hex
      exact hA (hiff.mpr hex)
  · intro hall
    have hwv : checkInWasOutOfDate (checkInScanErrors env) = false := by
      cases hwv : checkInWasOutOfDate (checkInScanErrors env) with
      | false => rfl
      | true =>
          obtain ⟨e, he, hp⟩ := hiff.mp hwv
          exact absurd hp (hall e he)
    obtain ⟨_, rf, rp, rs⟩ := hB hwv
    exact ⟨by rw [hc2]; exact rf, by rw [hc3]; exact rp, rs⟩

/-- Witness for C6 (amended): the fetch-first rejection matches no two-marker
message, so no recovery step runs and the raw run fails. -/
theorem C6_recovery_marker_witness :
    (checkInExecute c6Env []).fetchCalls = 0 ∧ (checkInExecute c6Env []).pullCalls = 0 ∧
    (checkInRaw c6Env []).success = false :=
  (C6_recovery_marker c6Env [] (by decide) (by decide) (by decide) (by decide)).2 (by decide)

/-! ### Claim C7 -/

/-- Counterexample to C7 as stated: with an empty target file list the worker
does not skip the commit step — `RunCommit` is still invoked (once, with an
empty pathspec list). -/
theorem C7_counterexample :
    (checkInExecute okCheckInEnv []).commitCalls = 1 ∧
    ¬((checkInExecute okCheckInEnv []).commitCalls = 0) := by decide

/-- C7 (amended): executed with an empty target file list, the worker still
runs the commit step, invoking commit once with an empty pathspec list; only
if that commit invocation (and the upstream-branch lookup) succeeds does it
proceed to the upstream diff, and it then attempts the push regardless of
the diff result; if the empty commit fails the push is never attempted. -/
theorem C7_empty_commit_not_skipped (env : CheckInEnv) (h1 : env.tempFileOk = true) :
    (checkInExecute env []).commitCalls ≥ 1 ∧
    (checkInExecute env []).commitFiles = [] ∧
    runCommitInvocations [] = [{ amend := false, files := [] }] ∧
    (env.commitOk = true → env.branchOk = true →
      (checkInExecute env []).diffCalls = 1 ∧ (checkInExecute env []).pushCalls ≥ 1) ∧
    (env.commitOk = false → (checkInExecute env []).pushCalls = 0) := by
  obtain ⟨_, _, _, hc4, hc5, hc6, hc7⟩ := checkInExecute_counts env []
  obtain ⟨r1, r2, r3, r4⟩ := checkInRaw_commit_behavior env [] h1
  refine ⟨by rw [hc5]; exact r1, by rw [hc6]; exact r2, by decide, ?_, ?_⟩
  · intro hco hbr
    obtain ⟨d1, d2⟩ := r3 hco hbr
    exact ⟨by rw [hc7]; exact d1, by rw [hc4]; exact d2⟩
  · intro hco
    rw [hc4]
    exact r4 hco

/-- Witness for C7 (amended): in the all-successful environment the empty
check-in still commits once and pushes. -/
theorem C7_empty_commit_not_skipped_witness :
    (checkInExecute okCheckInEnv []).commitCalls ≥ 1 ∧
    (checkInExecute okCheckInEnv []).pushCalls ≥ 1 :=
  ⟨(C7_empty_commit_not_skipped okCheckInEnv (by decide)).1,
   ((C7_empty_commit_not_skipped okCheckInEnv (by decide)).2.2.2.1 (by decide) (by decide)).2⟩
